import Mathlib

/-!
Verification development for the ai-resource-finder candidate-matching core.

The definitions below are a shallow embedding of the Python sources:
`utils/skill_normalizer.py`, `services/gap_analyzer.py`,
`services/matching_engine.py` and `agents/course_agent.py`.
Python dictionaries are modelled as association lists in insertion order,
Python floats as rationals, fallible external calls (database, LLM) as
explicit parameters, and exceptions as `Except`.
-/

namespace ResourceFinder

/-! ### Python string primitives

Models of the string operations used by `SkillNormalizer.normalize_skill`:
`str.lower`, `str.strip`, `re.sub(r'\s+', ' ', s)`, `str.replace`, and the
substring test `v in s`.  All skill strings in the repository are ASCII, so
`lower` is modelled on the ASCII range. -/

/-- ASCII lower-casing of one character, as Python `str.lower` acts on ASCII. -/
def asciiLowerChar (c : Char) : Char :=
  if 'A' ≤ c ∧ c ≤ 'Z' then Char.ofNat (c.toNat + 32) else c

/-- Whitespace class of Python `str.strip` and the regex `\s` (ASCII part). -/
def pySpace (c : Char) : Bool :=
  c = ' ' || c = '\t' || c = '\n' || c = '\r' || c = Char.ofNat 11 || c = Char.ofNat 12

/-- Python `str.strip`: drop leading and trailing whitespace. -/
def pyStrip (l : List Char) : List Char :=
  ((l.dropWhile pySpace).reverse.dropWhile pySpace).reverse

/-- One pass of `re.sub(r'\s+', ' ', s)`: every maximal run of whitespace
becomes a single space.  `prevSpace` records whether the previous character
belonged to a whitespace run. -/
def collapseGo (prevSpace : Bool) : List Char → List Char
  | [] => []
  | c :: cs =>
    if pySpace c then
      if prevSpace then collapseGo true cs else ' ' :: collapseGo true cs
    else c :: collapseGo false cs

/-- The sequential `replace(".", "").replace("-", " ").replace("_", " ")` of
`normalize_skill`; all three patterns are single characters, so one pass is
equivalent to the three sequential passes. -/
def replaceSeps : List Char → List Char
  | [] => []
  | c :: cs =>
    if c = '.' then replaceSeps cs
    else if c = '-' || c = '_' then ' ' :: replaceSeps cs
    else c :: replaceSeps cs

/-- The cleaning pipeline of `normalize_skill` before the variation-table
lookup: `skill.lower().strip()`, whitespace collapse, separator replacement. -/
def cleanSkill (s : String) : String :=
  ⟨replaceSeps (collapseGo false (pyStrip (s.toList.map asciiLowerChar)))⟩

/-- Does `n` start the list `h`?  (Helper for the substring test.) -/
def startsWith : List Char → List Char → Bool
  | [], _ => true
  | _ :: _, [] => false
  | a :: as, b :: bs => a = b && startsWith as bs

/-- Python's substring operator `n in h` on strings (contiguous occurrence). -/
def containsSub (n : List Char) : List Char → Bool
  | [] => n.isEmpty
  | c :: hs => startsWith n (c :: hs) || containsSub n hs

/-- Substring test on `String`, as Python `v in s`. -/
def substrB (v s : String) : Bool :=
  containsSub v.toList s.toList

/-! ### SkillNormalizer (`utils/skill_normalizer.py`) -/

namespace SkillNormalizer

/-- The `SKILL_VARIATIONS` table: canonical name paired with its variations,
in source order. -/
def SKILL_VARIATIONS : List (String × List String) :=
  [ ("rest api", ["rest api", "rest apis", "restful api", "restful apis", "rest", "restful"]),
    ("spring boot", ["spring boot", "springboot", "spring-boot"]),
    ("spring framework", ["spring framework", "spring", "spring core"]),
    ("react.js", ["react.js", "reactjs", "react", "react js"]),
    ("node.js", ["node.js", "nodejs", "node js", "node"]),
    ("mysql", ["mysql", "my sql"]),
    ("javascript", ["javascript", "js", "ecmascript"]),
    ("typescript", ["typescript", "ts"]),
    ("python", ["python", "py"]),
    ("java", ["java", "java programming", "java development"]) ]

/-- The `SKILL_DEPENDENCIES` table: a skill paired with the skills it implies. -/
def SKILL_DEPENDENCIES : List (String × List String) :=
  [ ("spring boot", ["java", "spring framework"]),
    ("spring framework", ["java"]),
    ("react.js", ["javascript"]),
    ("node.js", ["javascript"]),
    ("typescript", ["javascript"]),
    ("angular", ["typescript", "javascript"]),
    ("vue.js", ["javascript"]) ]

/-- The match condition of the `normalize_skill` loop body:
`normalized in variations or any(v in normalized for v in variations)` —
list membership, or some variation occurring as a substring. -/
def variationHit (normalized : String) (variations : List String) : Bool :=
  variations.contains normalized || variations.any (fun v => substrB v normalized)

/-- `SkillNormalizer.normalize_skill`: clean the string, then return the
canonical name of the first variation group that matches, else the cleaned
string itself.  The empty string returns early. -/
def normalize_skill (skill : String) : String :=
  if skill = "" then ""
  else
    let normalized := cleanSkill skill
    match SKILL_VARIATIONS.find? (fun g => variationHit normalized g.2) with
    | some g => g.1
    | none => normalized

/-- `SkillNormalizer.skills_match`: equal after normalization, or related
through some variation group (member/member, canonical/member either way). -/
def skills_match (skill1 skill2 : String) : Bool :=
  let norm1 := normalize_skill skill1
  let norm2 := normalize_skill skill2
  norm1 = norm2 ||
    SKILL_VARIATIONS.any (fun g =>
      (g.2.contains norm1 && g.2.contains norm2) ||
      (norm1 = g.1 && g.2.contains norm2) ||
      (norm2 = g.1 && g.2.contains norm1))

/-- `SkillNormalizer.get_implied_skills`: dependency-table lookup on the
normalized skill, defaulting to the empty list. -/
def get_implied_skills (skill : String) : List String :=
  (SKILL_DEPENDENCIES.lookup (normalize_skill skill)).getD []

/-- `SkillNormalizer.has_skill_or_equivalent`: direct membership of the
normalized required skill, a variation match against some candidate skill,
or membership in the implied set of some candidate skill.  The Python set
of candidate skills is modelled as a list; only membership and existential
iteration are used, so list order is irrelevant. -/
def has_skill_or_equivalent (candidate_skills : List String) (required_skill : String) : Bool :=
  let normalized_required := normalize_skill required_skill
  candidate_skills.contains normalized_required ||
    candidate_skills.any (fun cs => skills_match cs normalized_required) ||
    candidate_skills.any (fun cs => (get_implied_skills cs).contains normalized_required)

end SkillNormalizer

/-! ### Data model

`CandidateProfile` keeps the fields the gap analyzer reads.  Python
dictionaries become association lists in insertion order; of the
`extracted_skills` value record only the `proficiency` field is ever read,
so the value is modelled as that string. -/

/-- Candidate profile (`models/candidate.py`), restricted to the fields the
core reads: `extracted_skills` (skill name to proficiency string),
`years_of_experience`, `domain_tags`. -/
structure CandidateProfile where
  extracted_skills : List (String × String)
  years_of_experience : List (String × ℚ)
  domain_tags : List String
deriving DecidableEq

/-- One gap record produced by `GapAnalyzer.analyze_gaps`.  The years fields
are present exactly for `insufficient_experience` gaps. -/
structure Gap where
  skill : String
  gap_type : String
  severity : String
  required_years : Option ℚ
  candidate_years : Option ℚ
deriving DecidableEq

/-! ### GapAnalyzer (`services/gap_analyzer.py`) -/

namespace GapAnalyzer

open SkillNormalizer

/-- Insert into an association list, overwriting the value of an existing key
in place but appending a new key at the end — the behaviour of Python dict
assignment during the `candidate_skills_normalized` comprehension. -/
def insertAssoc (l : List (String × String)) (k v : String) : List (String × String) :=
  match l with
  | [] => [(k, v)]
  | (k', v') :: rest => if k' = k then (k, v) :: rest else (k', v') :: insertAssoc rest k v

/-- The dict comprehension
`{normalize_skill(skill): skill for skill in candidate_skills_dict.keys()}`:
normalized form mapped to the (last) original spelling, keys in first-seen
order. -/
def candidateNormalized (c : CandidateProfile) : List (String × String) :=
  c.extracted_skills.foldl (fun acc kv => insertAssoc acc (normalize_skill kv.1) kv.1) []

/-- `candidate_skills_set`: the normalized skill names together with every
skill implied by one of them.  The Python set is modelled as a list; the set
is only ever used through membership and existential iteration. -/
def candidateSkillSet (c : CandidateProfile) : List String :=
  let base := (candidateNormalized c).map (·.1)
  base ++ base.flatMap get_implied_skills

/-- The `actual_skill_key` search: the original spelling attached to the
first normalized candidate skill that `skills_match`es the normalized
required skill. -/
def actual_skill_key (c : CandidateProfile) (normalized_required : String) : Option String :=
  ((candidateNormalized c).find? (fun kv => skills_match kv.1 normalized_required)).map (·.2)

/-- The proficiency-to-score table of `analyze_gaps`
(default 0.0 for unknown strings). -/
def proficiency_score (p : String) : ℚ :=
  if p = "expert" then 1
  else if p = "advanced" then 3/4
  else if p = "intermediate" then 1/2
  else if p = "beginner" then 1/4
  else 0

/-- Lower-case a string the way Python `str.lower` does on ASCII. -/
def pyLower (s : String) : String :=
  ⟨s.toList.map asciiLowerChar⟩

/-- The body of the `for required_skill in required_skills` loop of
`analyze_gaps`: at most one gap per required skill.  Mirrors the source's
early-`continue` structure: missing → `missing/high`; otherwise locate the
actual extracted-skill key (`None` — e.g. satisfied only via an implied
skill — means no further check and no gap); low proficiency →
`insufficient`; short recorded years against `min_years_per_skill` →
`insufficient_experience`. -/
def gapForSkill (c : CandidateProfile) (min_years_per_skill : List (String × ℚ))
    (required_skill : String) : Option Gap :=
  let normalized_required := normalize_skill required_skill
  if ¬ has_skill_or_equivalent (candidateSkillSet c) required_skill then
    some ⟨required_skill, "missing", "high", none, none⟩
  else
    match actual_skill_key c normalized_required with
    | none => none
    | some key =>
      -- `if actual_skill_key and actual_skill_key in candidate_skills_dict:`
      if key = "" then none
      else
        match c.extracted_skills.lookup key with
        | none => none
        | some profRaw =>
          let p := proficiency_score (pyLower profRaw)
          if p < 1/2 then
            some ⟨required_skill, "insufficient", if p < 1/4 then "high" else "medium",
                  none, none⟩
          else
            match min_years_per_skill.lookup key with
            | none => none
            | some required_years =>
              let candidate_years := ((c.years_of_experience.lookup key).getD 0)
              if candidate_years < required_years then
                some ⟨required_skill, "insufficient_experience",
                      if required_years - candidate_years > 2 then "high" else "medium",
                      some required_years, some candidate_years⟩
              else none

/-- `GapAnalyzer.analyze_gaps`: the loop appends at most one gap per required
skill and never reorders, i.e. it is the `filterMap` of `gapForSkill`. -/
def analyze_gaps (c : CandidateProfile) (required_skills : List String)
    (min_years_per_skill : List (String × ℚ)) : List Gap :=
  required_skills.filterMap (gapForSkill c min_years_per_skill)

end GapAnalyzer

/-! ### MatchingEngine (`services/matching_engine.py`) -/

/-- Parsed requirement structure, as consumed by `rule_based_scoring` and
`match_candidates`.  An empty `domain` string (after strip) and empty lists
mean "not specified". -/
structure ParsedRequirement where
  required_skills : List String
  preferred_skills : List String
  domain : String
  min_years_per_skill : List (String × ℚ)
  seniority : String
deriving DecidableEq

/-- A candidate dictionary as it flows through the matching pipeline after
vector search: profile fields plus the vector `similarity` and the fields
written by LLM re-ranking (absent until then, hence `Option`). -/
structure RankedCandidate where
  name : String
  extracted_skills : List (String × String)
  years_of_experience : List (String × ℚ)
  domain_tags : List String
  similarity : Option ℚ
  llm_score : Option ℚ
  matched_skills : Option (List String)
  missing_skills : Option (List String)
  proficiency_insights : Option String
  evidence_snippets : Option (List String)
deriving DecidableEq

namespace MatchingEngine

open SkillNormalizer

/-- Required-skills coverage of `rule_based_scoring` Rule 1:
`matched_required / len(required_skills)` — membership of the *raw* required
skill string among the extracted-skill keys — or `1.0` with no required
skills. -/
def ruleRequiredScore (c : RankedCandidate) (r : ParsedRequirement) : ℚ :=
  let candidate_skills := c.extracted_skills.map (·.1)
  if r.required_skills = [] then 1
  else (r.required_skills.countP (fun s => candidate_skills.contains s) : ℚ)
        / (r.required_skills.length : ℚ)

/-- Preferred-skills coverage of Rule 2 (only used when
`preferred_skills` is non-empty). -/
def rulePreferredScore (c : RankedCandidate) (r : ParsedRequirement) : ℚ :=
  let candidate_skills := c.extracted_skills.map (·.1)
  if r.preferred_skills = [] then 0
  else (r.preferred_skills.countP (fun s => candidate_skills.contains s) : ℚ)
        / (r.preferred_skills.length : ℚ)

/-- The stripped requirement domain of Rule 3. -/
def strippedDomain (r : ParsedRequirement) : String :=
  ⟨pyStrip r.domain.toList⟩

/-- Domain match of Rule 3: case-insensitive substring containment in either
direction against any candidate domain tag. -/
def ruleDomainScore (c : RankedCandidate) (r : ParsedRequirement) : ℚ :=
  let required_domain_lower := GapAnalyzer.pyLower (strippedDomain r)
  if c.domain_tags.any (fun d =>
       substrB required_domain_lower (GapAnalyzer.pyLower d) ||
       substrB (GapAnalyzer.pyLower d) required_domain_lower)
  then 1 else 0

/-- Per-skill years adequacy of Rule 4: full credit at or above the minimum,
partial credit `candidate_yrs / min_yrs` for positive shortfalls, zero
otherwise. -/
def yearsEntryScore (candidate_years : List (String × ℚ)) (skill : String) (min_yrs : ℚ) : ℚ :=
  let candidate_yrs := (candidate_years.lookup skill).getD 0
  if candidate_yrs ≥ min_yrs then 1
  else if candidate_yrs > 0 then candidate_yrs / min_yrs
  else 0

/-- Years-of-experience score of Rule 4: the mean of the per-skill scores
over the `min_years_per_skill` entries (`1.0` if that map is empty, though
the rule only fires when it is non-empty). -/
def ruleYearsScore (c : RankedCandidate) (r : ParsedRequirement) : ℚ :=
  if r.min_years_per_skill = [] then 1
  else (r.min_years_per_skill.map
          (fun kv => yearsEntryScore c.years_of_experience kv.1 kv.2)).sum
        / (r.min_years_per_skill.length : ℚ)

/-- The `scores` list built by `rule_based_scoring`: name, sub-score and
weight of each applied axis, in source append order, with the weight of
every "not specified" axis redistributed onto the required-skills axis
(whose base weight is 0.40 + 0.10 from the removed proficiency axis). -/
def rule_scores (c : RankedCandidate) (r : ParsedRequirement) : List (String × ℚ × ℚ) :=
  let w0 : ℚ := 0.40 + 0.10
  let prefPart : List (String × ℚ × ℚ) :=
    if r.preferred_skills = [] then [] else [("preferred_skills", rulePreferredScore c r, 0.20)]
  let w1 := if r.preferred_skills = [] then w0 + 0.20 else w0
  let domainPart : List (String × ℚ × ℚ) :=
    if strippedDomain r = "" then [] else [("domain", ruleDomainScore c r, 0.15)]
  let w2 := if strippedDomain r = "" then w1 + 0.15 else w1
  let yearsPart : List (String × ℚ × ℚ) :=
    if r.min_years_per_skill = [] then [] else [("years", ruleYearsScore c r, 0.15)]
  let w3 := if r.min_years_per_skill = [] then w2 + 0.15 else w2
  prefPart ++ domainPart ++ yearsPart ++ [("required_skills", ruleRequiredScore c r, w3)]

/-- `MatchingEngine.rule_based_scoring`: the weighted sum of the applied
axes, clamped to [0,1]. -/
def rule_based_scoring (c : RankedCandidate) (r : ParsedRequirement) : ℚ :=
  let total := ((rule_scores c r).map (fun e => e.2.1 * e.2.2)).sum
  min (max total 0) 1

/-- `MatchingEngine.calculate_final_score` with the three configured fusion
weights passed explicitly (they are environment-configured constants). -/
def calculate_final_score (wv wl wr : ℚ) (vector_score llm_score rule_score : ℚ) : ℚ :=
  min (max (wv * vector_score + wl * llm_score + wr * rule_score) 0) 1

/-- Python's built-in `round` (round half to even) on rationals. -/
def pyRound (q : ℚ) : ℤ :=
  let f := ⌊q⌋
  let r := q - (f : ℚ)
  if r < 1/2 then f
  else if 1/2 < r then f + 1
  else if f % 2 = 0 then f else f + 1

/-! #### LLM re-ranking (`llm_rerank` / `_rerank_batch`)

The Bedrock call is external; its per-batch outcome is a parameter: either
an exception (`Except.error`) or a list of parsed JSON records whose fields
may each be absent.  A record whose values are so ill-typed that reading
them raises is subsumed by the `Except.error` case, since the exception
handler covers the whole mapping loop. -/

/-- One parsed record of the LLM re-ranking response; every field is read
with a `.get` default in the source. -/
structure LLMRecord where
  candidate_index : Option ℤ
  relevance_score : Option ℚ
  matched_skills : Option (List String)
  missing_skills : Option (List String)
  proficiency_insights : Option String
  evidence_snippets : Option (List String)
deriving DecidableEq

/-- The zero-confidence defaults written both by the exception handler and by
the `"llm_score" not in candidate` cleanup loop. -/
def setDefaults (c : RankedCandidate) : RankedCandidate :=
  { c with llm_score := some 0, matched_skills := some [], missing_skills := some [],
           proficiency_insights := some "", evidence_snippets := some [] }

/-- Write one response record onto the candidate it addresses:
`llm_score = relevance_score/100` and the four analysis fields, each
defaulted when absent. -/
def applyRecord (c : RankedCandidate) (rec : LLMRecord) : RankedCandidate :=
  { c with llm_score := some ((rec.relevance_score.getD 0) / 100),
           matched_skills := some (rec.matched_skills.getD []),
           missing_skills := some (rec.missing_skills.getD []),
           proficiency_insights := some (rec.proficiency_insights.getD ""),
           evidence_snippets := some (rec.evidence_snippets.getD []) }

/-- One iteration of the `for result in results` loop: look up
`candidate_index` (default 0) and, when it is in range, overwrite that
candidate's LLM fields. -/
def applyOne (cs : List RankedCandidate) (rec : LLMRecord) : List RankedCandidate :=
  let idx := rec.candidate_index.getD 0
  if 0 ≤ idx ∧ idx.toNat < cs.length then
    match cs[idx.toNat]? with
    | some c => cs.set idx.toNat (applyRecord c rec)
    | none => cs
  else cs

/-- `MatchingEngine._rerank_batch` on one batch, given the outcome of the
LLM call: on exception every candidate of the batch gets the defaults; on a
response, records are mapped back by index and the cleanup loop defaults
every candidate still lacking an `llm_score`. -/
def rerank_batch (batch : List RankedCandidate)
    (resp : Except Unit (List LLMRecord)) : List RankedCandidate :=
  match resp with
  | .error _ => batch.map setDefaults
  | .ok results =>
    (results.foldl applyOne batch).map
      (fun c => if c.llm_score.isNone then setDefaults c else c)

/-- The batching loop of `llm_rerank`: batches of 5 processed in order, the
`b`-th batch against the `b`-th LLM outcome. -/
def rerankGo (oracle : ℕ → Except Unit (List LLMRecord))
    (cands : List RankedCandidate) (b : ℕ) : List RankedCandidate :=
  if h : cands = [] then []
  else rerank_batch (cands.take 5) (oracle b) ++ rerankGo oracle (cands.drop 5) (b + 1)
termination_by cands.length
decreasing_by
  have : cands.length ≠ 0 := fun hl => h (List.length_eq_zero.mp hl)
  simp only [List.length_drop]
  omega

/-- `MatchingEngine.llm_rerank` with the per-batch LLM outcomes supplied by
`oracle`. -/
def llm_rerank (cands : List RankedCandidate)
    (oracle : ℕ → Except Unit (List LLMRecord)) : List RankedCandidate :=
  rerankGo oracle cands 0

/-! #### Scoring, sorting and truncation (`match_candidates`, steps 3+) -/

/-- A candidate after the scoring loop of `match_candidates`: the original
record plus `rule_score`, `final_score`, `match_percentage` and `gaps`. -/
structure ScoredCandidate where
  cand : RankedCandidate
  rule_score : ℚ
  final_score : ℚ
  match_percentage : ℤ
  gaps : List Gap
deriving DecidableEq

/-- The gap-analysis view of a pipeline candidate
(`CandidateProfile(**candidate)`). -/
def toProfile (c : RankedCandidate) : CandidateProfile :=
  ⟨c.extracted_skills, c.years_of_experience, c.domain_tags⟩

/-- The body of the per-candidate scoring loop of `match_candidates`:
vector score and LLM score read with default 0, rule score, fused final
score, rounded percentage, and the gap list. -/
def scoreCandidate (wv wl wr : ℚ) (r : ParsedRequirement) (c : RankedCandidate) :
    ScoredCandidate :=
  let vector_score := c.similarity.getD 0
  let llm_score := c.llm_score.getD 0
  let rule_score := rule_based_scoring c r
  let final_score := calculate_final_score wv wl wr vector_score llm_score rule_score
  ⟨c, rule_score, final_score, pyRound (final_score * 100),
   GapAnalyzer.analyze_gaps (toProfile c) r.required_skills r.min_years_per_skill⟩

/-- Insert into a list sorted descending by `key`, after every element of
greater or equal key — the insertion step of a stable descending sort. -/
def insertByKeyDesc {α : Type} (key : α → ℚ) (x : α) : List α → List α
  | [] => [x]
  | y :: ys => if key y ≤ key x then x :: y :: ys else y :: insertByKeyDesc key x ys

/-- Stable descending insertion sort: the unique stable sort, hence the
behaviour of Python's `list.sort(key=..., reverse=True)`. -/
def sortByKeyDesc {α : Type} (key : α → ℚ) : List α → List α
  | [] => []
  | x :: xs => insertByKeyDesc key x (sortByKeyDesc key xs)

/-- Steps 3–4 of `match_candidates` (after vector search and LLM
re-ranking): score every candidate, sort descending by `final_score`
(stable), truncate to `top_n`. -/
def match_candidates_rank (wv wl wr : ℚ) (r : ParsedRequirement)
    (cands : List RankedCandidate) (top_n : ℕ) : List ScoredCandidate :=
  (sortByKeyDesc (·.final_score) (cands.map (scoreCandidate wv wl wr r))).take top_n

end MatchingEngine

/-! ### CourseAgent (`agents/course_agent.py`)

Database retrieval and the LLM call are external; the four stages of the
course-retrieval fallback chain and the LLM outcome are parameters. -/

/-- A course row as it flows through `recommend_courses`: catalog fields,
the vector `similarity`, and the fields written by LLM re-ranking. -/
structure CourseRow where
  id : Option ℤ
  title : String
  description : String
  level : Option String
  prerequisites : List String
  similarity : Option ℚ
  llm_score : Option ℚ
  rationale : Option String
  gaps_addressed : Option (List String)
deriving DecidableEq

/-- A course row after the scoring loop added `rule_score` and
`final_score`. -/
structure ScoredCourse where
  row : CourseRow
  rule_score : ℚ
  final_score : ℚ
deriving DecidableEq

/-- `models/course.py` `TrainingCourse`, restricted to the fields
`recommend_courses` copies. -/
structure TrainingCourse where
  id : Option ℤ
  title : String
  description : String
  level : Option String
  prerequisites : List String
deriving DecidableEq

/-- `models/course.py` `CourseRecommendation`. -/
structure CourseRecommendation where
  course : TrainingCourse
  score : ℚ
  rationale : String
  gaps_addressed : List String
deriving DecidableEq

/-- One parsed record of the course re-ranking LLM response. -/
structure CourseLLMRecord where
  course_index : Option ℤ
  relevance_score : Option ℚ
  rationale : Option String
  gaps_addressed : Option (List String)
deriving DecidableEq

namespace CourseAgent

/-- One iteration of the course response-mapping loop. -/
def applyOneCourse (cs : List CourseRow) (rec : CourseLLMRecord) : List CourseRow :=
  let idx := rec.course_index.getD 0
  if 0 ≤ idx ∧ idx.toNat < cs.length then
    match cs[idx.toNat]? with
    | some c => cs.set idx.toNat
        { c with llm_score := some ((rec.relevance_score.getD 0) / 100),
                 rationale := some (rec.rationale.getD ""),
                 gaps_addressed := some (rec.gaps_addressed.getD []) }
    | none => cs
  else cs

/-- `CourseAgent._llm_rerank_courses`, given the LLM outcome.  Unlike the
candidate path there is no cleanup loop: unaddressed courses keep their
fields absent (read back later with defaults). -/
def llm_rerank_courses (courses : List CourseRow)
    (resp : Except Unit (List CourseLLMRecord)) : List CourseRow :=
  match resp with
  | .error _ => courses.map (fun c =>
      { c with llm_score := some 0, rationale := some "", gaps_addressed := some [] })
  | .ok results => results.foldl applyOneCourse courses

/-- `CourseAgent._rule_based_course_score`: difficulty/severity alignment
(0.4), prerequisite coverage (0.3) and a practicality keyword heuristic
(0.3). -/
def rule_based_course_score (course : CourseRow) (gaps : List Gap)
    (profile_skills : List String) : ℚ :=
  let has_high := (gaps.map (·.severity)).contains "high"
  let course_level := GapAnalyzer.pyLower (course.level.getD "")
  let difficulty_score : ℚ :=
    if has_high ∧ (course_level = "advanced" ∨ course_level = "expert") then 1
    else if ¬ has_high ∧ (course_level = "beginner" ∨ course_level = "intermediate") then 1
    else 0.5
  let lowered_skills := profile_skills.map GapAnalyzer.pyLower
  let prereq_score : ℚ :=
    if course.prerequisites = [] then 1
    else (course.prerequisites.countP
            (fun p => lowered_skills.contains (GapAnalyzer.pyLower p)) : ℚ)
          / (course.prerequisites.length : ℚ)
  let description := GapAnalyzer.pyLower course.description
  let practicality_score : ℚ :=
    if ["hands-on", "practical", "project", "real-world", "workshop", "lab"].any
         (fun kw => substrB kw description)
    then 1 else 0.7
  0.4 * difficulty_score + 0.3 * prereq_score + 0.3 * practicality_score

/-- The course scoring loop: rule score plus unclamped weighted fusion of
similarity, LLM score and rule score. -/
def scoreCourse (wv wl wr : ℚ) (gaps : List Gap) (profile_skills : List String)
    (c : CourseRow) : ScoredCourse :=
  let rule_score := rule_based_course_score c gaps profile_skills
  ⟨c, rule_score,
   wv * (c.similarity.getD 0) + wl * (c.llm_score.getD 0) + wr * rule_score⟩

/-- The course-retrieval fallback chain of `recommend_courses`: primary
vector search, lower-threshold retry, broader bare-skill-name query (only
issued when some gap skill exists, which holds whenever `gaps` is
non-empty), then any catalog courses. -/
def selectCourses (s1 s2 s3 s4 : List CourseRow) : List CourseRow :=
  if s1 ≠ [] then s1 else if s2 ≠ [] then s2 else if s3 ≠ [] then s3 else s4

/-- Convert one selected course to a `CourseRecommendation`; an absent or
empty `gaps_addressed` falls back to the top two gap skills. -/
def toRecommendation (gaps : List Gap) (c : ScoredCourse) : CourseRecommendation :=
  let ga := (c.row.gaps_addressed).getD []
  ⟨⟨c.row.id, c.row.title, c.row.description, c.row.level, c.row.prerequisites⟩,
   c.final_score, (c.row.rationale).getD "",
   if ga = [] then (gaps.take 2).map (·.skill) else ga⟩

/-- `CourseAgent.recommend_courses` with the retrieval stages `s1`–`s4`, the
LLM outcome and the three fusion weights as parameters.  Empty gaps return
immediately; an empty fallback chain returns the empty list; otherwise the
courses are re-ranked, scored, sorted descending (stable) and 1 or 2 are
selected (2 only when there are several gaps the top course does not cover
and a second course exists). -/
def recommend_courses (gaps : List Gap) (profile_skills : List String)
    (s1 s2 s3 s4 : List CourseRow) (resp : Except Unit (List CourseLLMRecord))
    (wv wl wr : ℚ) : List CourseRecommendation :=
  if gaps = [] then []
  else
    let courses := selectCourses s1 s2 s3 s4
    if courses = [] then []
    else
      let courses := llm_rerank_courses courses resp
      let scored := courses.map (scoreCourse wv wl wr gaps profile_skills)
      let sorted := MatchingEngine.sortByKeyDesc (·.final_score) scored
      let top_course_gaps :=
        match sorted with
        | [] => []
        | top :: _ => (top.row.gaps_addressed).getD []
      let num_courses :=
        if gaps.length > 1 ∧ top_course_gaps.length < gaps.length ∧ sorted.length > 1
        then 2 else 1
      let top_courses := sorted.take (min num_courses 2)
      let recommendations := top_courses.map (toRecommendation gaps)
      -- `if not recommendations and courses:` — unreachable here since
      -- `courses` is non-empty, hence `top_courses` is non-empty; kept for
      -- fidelity to the source.
      if recommendations = [] ∧ sorted ≠ [] then
        match sorted with
        | [] => recommendations
        | top :: _ =>
          let ga := (gaps.take 2).map (·.skill)
          [⟨⟨top.row.id, top.row.title, top.row.description, top.row.level,
             top.row.prerequisites⟩,
            top.final_score,
            "Recommended to address gaps in " ++ String.intercalate ", " ga, ga⟩]
      else recommendations

theorem applyOneCourse_length (cs : List CourseRow) (rec : CourseLLMRecord) :
    (applyOneCourse cs rec).length = cs.length := by
  simp only [applyOneCourse]
  split
  · split
    · exact List.length_set ..
    · rfl
  · rfl

theorem foldl_applyOneCourse_length (rs : List CourseLLMRecord) :
    ∀ cs : List CourseRow, (rs.foldl applyOneCourse cs).length = cs.length := by
  induction rs with
  | nil => intro cs; rfl
  | cons rec rs ih =>
    intro cs
    rw [List.foldl_cons, ih (applyOneCourse cs rec), applyOneCourse_length]

theorem llm_rerank_courses_length (courses : List CourseRow)
    (resp : Except Unit (List CourseLLMRecord)) :
    (llm_rerank_courses courses resp).length = courses.length := by
  cases resp with
  | error e => exact List.length_map ..
  | ok rs =>
    simp only [llm_rerank_courses]
    exact foldl_applyOneCourse_length rs courses

end CourseAgent

/-! ### Helper lemmas -/

theorem startsWith_self (l : List Char) : startsWith l l = true := by
  induction l with
  | nil => rfl
  | cons c cs ih => simp [startsWith, ih]

theorem containsSub_self (l : List Char) : containsSub l l = true := by
  cases l with
  | nil => rfl
  | cons c cs => simp [containsSub, startsWith_self]

theorem substrB_self (s : String) : substrB s s = true :=
  containsSub_self s.toList

/-- A `filterMap` whose produced elements remember their source is a
sublist of the source under that projection. -/
theorem filterMap_proj_sublist {α β : Type} (f : α → Option β) (g : β → α)
    (hf : ∀ a b, f a = some b → g b = a) (l : List α) :
    ((l.filterMap f).map g).Sublist l := by
  induction l with
  | nil => simp
  | cons a l ih =>
    cases hfa : f a with
    | none => simpa [List.filterMap_cons, hfa] using ih.cons a
    | some b =>
      simpa [List.filterMap_cons, hfa, hf a b hfa] using ih.cons₂ a

namespace GapAnalyzer

/-- Every gap `gapForSkill` produces carries the required skill it was
produced for. -/
theorem gapForSkill_skill (c : CandidateProfile) (my : List (String × ℚ))
    (s : String) (g : Gap) (h : gapForSkill c my s = some g) : g.skill = s := by
  simp only [gapForSkill] at h
  repeat' split at h
  all_goals first
    | (cases h; rfl)
    | exact absurd h (by simp)

end GapAnalyzer

namespace MatchingEngine

theorem ruleRequiredScore_nonneg (c : RankedCandidate) (r : ParsedRequirement) :
    0 ≤ ruleRequiredScore c r := by
  unfold ruleRequiredScore
  split
  · norm_num
  · positivity

theorem ruleRequiredScore_le_one (c : RankedCandidate) (r : ParsedRequirement) :
    ruleRequiredScore c r ≤ 1 := by
  unfold ruleRequiredScore
  split
  · norm_num
  · next hne =>
    rw [div_le_one (by exact_mod_cast List.length_pos.mpr hne)]
    exact_mod_cast List.countP_le_length _

theorem mem_insertByKeyDesc {α : Type} (key : α → ℚ) (x : α) (l : List α) (a : α) :
    a ∈ insertByKeyDesc key x l ↔ a = x ∨ a ∈ l := by
  induction l with
  | nil => simp [insertByKeyDesc]
  | cons y ys ih =>
    unfold insertByKeyDesc
    split
    · simp [or_comm, or_left_comm]
    · simp [ih, or_comm, or_left_comm]

theorem insertByKeyDesc_perm {α : Type} (key : α → ℚ) (x : α) (l : List α) :
    (insertByKeyDesc key x l).Perm (x :: l) := by
  induction l with
  | nil => simp [insertByKeyDesc]
  | cons y ys ih =>
    unfold insertByKeyDesc
    split
    · exact List.Perm.refl _
    · exact (ih.cons y).trans (List.Perm.swap x y ys)

theorem sortByKeyDesc_perm {α : Type} (key : α → ℚ) (l : List α) :
    (sortByKeyDesc key l).Perm l := by
  induction l with
  | nil => exact List.Perm.refl _
  | cons x xs ih =>
    exact (insertByKeyDesc_perm key x (sortByKeyDesc key xs)).trans (ih.cons x)

theorem pairwise_insertByKeyDesc {α : Type} (key : α → ℚ) (x : α) (l : List α)
    (hl : l.Pairwise (fun a b => key b ≤ key a)) :
    (insertByKeyDesc key x l).Pairwise (fun a b => key b ≤ key a) := by
  induction l with
  | nil => simp [insertByKeyDesc]
  | cons y ys ih =>
    rcases List.pairwise_cons.mp hl with ⟨hy, hys⟩
    unfold insertByKeyDesc
    split
    · next hle =>
      refine List.pairwise_cons.mpr ⟨?_, hl⟩
      intro b hb
      rcases List.mem_cons.mp hb with rfl | hb'
      · exact hle
      · exact (hy b hb').trans hle
    · next hlt =>
      refine List.pairwise_cons.mpr ⟨?_, ih hys⟩
      intro b hb
      rcases (mem_insertByKeyDesc key x ys b).mp hb with rfl | hb'
      · exact (not_le.mp hlt).le
      · exact hy b hb'

theorem sortByKeyDesc_pairwise {α : Type} (key : α → ℚ) (l : List α) :
    (sortByKeyDesc key l).Pairwise (fun a b => key b ≤ key a) := by
  induction l with
  | nil => simp [sortByKeyDesc]
  | cons x xs ih => exact pairwise_insertByKeyDesc key x _ ih

/-- Stability of the insertion step: inserting never reorders elements of
equal key, because the insertion point only passes over strictly greater
keys. -/
theorem filter_insertByKeyDesc {α : Type} (key : α → ℚ) (x : α) (l : List α) (q : ℚ) :
    (insertByKeyDesc key x l).filter (fun a => decide (key a = q))
      = (x :: l).filter (fun a => decide (key a = q)) := by
  induction l with
  | nil => rfl
  | cons y ys ih =>
    unfold insertByKeyDesc
    split
    · rfl
    · next hlt =>
      have hxy : key x < key y := not_le.mp hlt
      by_cases hq : key x = q
      · have hyq : ¬ (key y = q) := by
          intro hyq
          rw [hq] at hxy
          rw [hyq] at hxy
          exact lt_irrefl _ hxy
        simp [List.filter_cons, hq, hyq] at ih ⊢
        exact ih
      · simp [List.filter_cons, hq, ih]

/-- Stability of the sort: for every key value the elements carrying it keep
their original relative order. -/
theorem sortByKeyDesc_filter {α : Type} (key : α → ℚ) (l : List α) (q : ℚ) :
    (sortByKeyDesc key l).filter (fun a => decide (key a = q))
      = l.filter (fun a => decide (key a = q)) := by
  induction l with
  | nil => rfl
  | cons x xs ih =>
    unfold sortByKeyDesc
    rw [filter_insertByKeyDesc]
    simp only [List.filter_cons]
    rw [ih]

theorem applyOne_length (cs : List RankedCandidate) (rec : LLMRecord) :
    (applyOne cs rec).length = cs.length := by
  simp only [applyOne]
  split
  · split
    · exact List.length_set ..
    · rfl
  · rfl

theorem foldl_applyOne_length (rs : List LLMRecord) :
    ∀ cs : List RankedCandidate, (rs.foldl applyOne cs).length = cs.length := by
  induction rs with
  | nil => intro cs; rfl
  | cons rec rs ih =>
    intro cs
    rw [List.foldl_cons, ih (applyOne cs rec), applyOne_length]

theorem rerank_batch_length (batch : List RankedCandidate)
    (resp : Except Unit (List LLMRecord)) :
    (rerank_batch batch resp).length = batch.length := by
  cases resp with
  | error e => exact List.length_map ..
  | ok rs =>
    simp only [rerank_batch]
    rw [List.length_map, foldl_applyOne_length]

theorem rerank_batch_nil (resp : Except Unit (List LLMRecord)) :
    rerank_batch [] resp = [] := by
  have h := rerank_batch_length [] resp
  exact List.length_eq_zero.mp h

theorem rerank_batch_isSome (batch : List RankedCandidate)
    (resp : Except Unit (List LLMRecord)) :
    ∀ c ∈ rerank_batch batch resp, c.llm_score.isSome := by
  intro c hc
  cases resp with
  | error e =>
    rcases List.mem_map.mp hc with ⟨c0, _, rfl⟩
    rfl
  | ok rs =>
    rcases List.mem_map.mp hc with ⟨c0, _, rfl⟩
    cases h0 : c0.llm_score with
    | none => simp [h0, setDefaults]
    | some q => simp [h0]

theorem applyOne_getElem_ne (cs : List RankedCandidate) (rec : LLMRecord) (j : ℕ)
    (h : rec.candidate_index.getD 0 ≠ (j : ℤ)) :
    (applyOne cs rec)[j]? = cs[j]? := by
  simp only [applyOne]
  split
  · next hb =>
    split
    · next c hc =>
      have hne : (rec.candidate_index.getD 0).toNat ≠ j := by
        intro he
        exact h (by rw [← he, Int.toNat_of_nonneg hb.1])
      exact List.getElem?_set_ne hne
    · rfl
  · rfl

theorem foldl_applyOne_getElem_ne (rs : List LLMRecord) :
    ∀ cs : List RankedCandidate, ∀ j : ℕ,
      (∀ rec ∈ rs, rec.candidate_index.getD 0 ≠ (j : ℤ)) →
      (rs.foldl applyOne cs)[j]? = cs[j]? := by
  induction rs with
  | nil => intro cs j _; rfl
  | cons rec rs ih =>
    intro cs j hun
    rw [List.foldl_cons, ih (applyOne cs rec) j (fun r hr => hun r (List.mem_cons_of_mem _ hr)),
      applyOne_getElem_ne cs rec j (hun rec (List.mem_cons_self _ _))]

/-- A candidate of a batch addressed by no well-formed record of the
response — or any candidate when the LLM call raised — ends up exactly with
the zero-confidence defaults. -/
theorem rerank_batch_unaddressed (batch : List RankedCandidate)
    (resp : Except Unit (List LLMRecord)) (j : ℕ)
    (hn : ∀ c ∈ batch, c.llm_score = none)
    (hun : ∀ rs, resp = .ok rs → ∀ rec ∈ rs, rec.candidate_index.getD 0 ≠ (j : ℤ)) :
    (rerank_batch batch resp)[j]? = (batch[j]?).map setDefaults := by
  cases resp with
  | error e => exact List.getElem?_map ..
  | ok rs =>
    simp only [rerank_batch]
    rw [List.getElem?_map, foldl_applyOne_getElem_ne rs batch j (hun rs rfl)]
    cases hb : batch[j]? with
    | none => rfl
    | some c =>
      have hcn : c.llm_score = none := hn c (List.getElem?_mem hb)
      simp [hcn]

theorem rerankGo_length (oracle : ℕ → Except Unit (List LLMRecord)) :
    ∀ n : ℕ, ∀ cands : List RankedCandidate, ∀ b : ℕ, cands.length ≤ n →
      (rerankGo oracle cands b).length = cands.length := by
  intro n
  induction n with
  | zero =>
    intro cands b hn
    have hc : cands = [] := List.length_eq_zero.mp (Nat.le_zero.mp hn)
    subst hc
    rw [rerankGo]
    simp
  | succ n ih =>
    intro cands b hn
    by_cases hc : cands = []
    · subst hc; rw [rerankGo]; simp
    · rw [rerankGo, dif_neg hc, List.length_append, rerank_batch_length,
        ih (cands.drop 5) (b + 1) (by rw [List.length_drop]; omega)]
      rw [List.length_take, List.length_drop]
      have := List.length_pos.mpr hc
      omega

theorem rerankGo_isSome (oracle : ℕ → Except Unit (List LLMRecord)) :
    ∀ n : ℕ, ∀ cands : List RankedCandidate, ∀ b : ℕ, cands.length ≤ n →
      ∀ c ∈ rerankGo oracle cands b, c.llm_score.isSome := by
  intro n
  induction n with
  | zero =>
    intro cands b hn
    have hc : cands = [] := List.length_eq_zero.mp (Nat.le_zero.mp hn)
    subst hc
    rw [rerankGo]
    simp
  | succ n ih =>
    intro cands b hn c hc
    by_cases hcn : cands = []
    · subst hcn; rw [rerankGo] at hc; simp at hc
    · rw [rerankGo, dif_neg hcn] at hc
      rcases List.mem_append.mp hc with hl | hr
      · exact rerank_batch_isSome _ _ c hl
      · have hlen := List.length_pos.mpr hcn
        exact ih (cands.drop 5) (b + 1) (by rw [List.length_drop]; omega) c hr

/-- Batch isolation: the `k`-th five-candidate slice of the re-ranked output
is exactly the `k`-th input slice processed against the `k`-th LLM
outcome — other batches' outcomes cannot influence it. -/
theorem rerankGo_batch (oracle : ℕ → Except Unit (List LLMRecord)) :
    ∀ k : ℕ, ∀ cands : List RankedCandidate, ∀ b : ℕ,
      ((rerankGo oracle cands b).drop (5 * k)).take 5
        = rerank_batch ((cands.drop (5 * k)).take 5) (oracle (b + k)) := by
  intro k
  induction k with
  | zero =>
    intro cands b
    by_cases hc : cands = []
    · subst hc
      rw [rerankGo]
      simp [rerank_batch_nil]
    · rw [rerankGo, dif_neg hc]
      simp only [Nat.mul_zero, List.drop_zero, Nat.add_zero]
      rw [List.take_append_eq_append_take]
      have hA : (rerank_batch (cands.take 5) (oracle b)).length = (cands.take 5).length :=
        rerank_batch_length ..
      have hA5 : (rerank_batch (cands.take 5) (oracle b)).length ≤ 5 := by
        rw [hA]; exact List.length_take_le ..
      rw [List.take_of_length_le hA5]
      have hB : (rerankGo oracle (cands.drop 5) (b + 1)).take
          (5 - (rerank_batch (cands.take 5) (oracle b)).length) = [] := by
        by_cases hge : 5 ≤ cands.length
        · have : (rerank_batch (cands.take 5) (oracle b)).length = 5 := by
            rw [hA, List.length_take]
            omega
          rw [this]
          simp
        · have hdrop : cands.drop 5 = [] := List.drop_eq_nil_of_le (by omega)
          rw [hdrop, rerankGo]
          simp
      rw [hB, List.append_nil]
  | succ k ih =>
    intro cands b
    by_cases hc : cands = []
    · subst hc
      rw [rerankGo]
      simp [rerank_batch_nil]
    · rw [rerankGo, dif_neg hc]
      rw [List.drop_append_eq_append_drop]
      have hA : (rerank_batch (cands.take 5) (oracle b)).length = (cands.take 5).length :=
        rerank_batch_length ..
      have hA5 : (rerank_batch (cands.take 5) (oracle b)).length ≤ 5 := by
        rw [hA]; exact List.length_take_le ..
      have hAnil : (rerank_batch (cands.take 5) (oracle b)).drop (5 * (k + 1)) = [] :=
        List.drop_eq_nil_of_le (by rw [Nat.mul_succ]; omega)
      rw [hAnil, List.nil_append]
      by_cases hge : 5 ≤ cands.length
      · have hlenA : (rerank_batch (cands.take 5) (oracle b)).length = 5 := by
          rw [hA, List.length_take]; omega
        rw [hlenA]
        have harith : 5 * (k + 1) - 5 = 5 * k := by rw [Nat.mul_succ]; omega
        rw [harith, ih (cands.drop 5) (b + 1)]
        rw [List.drop_drop]
        have h2 : 5 + 5 * k = 5 * (k + 1) := by rw [Nat.mul_succ]; omega
        have h3 : b + 1 + k = b + (k + 1) := by omega
        rw [h2, h3]
      · have hdrop : cands.drop 5 = [] := List.drop_eq_nil_of_le (by omega)
        rw [hdrop, rerankGo]
        simp only [dif_pos rfl, List.drop_nil, List.take_nil]
        have hout : cands.drop (5 * (k + 1)) = [] :=
          List.drop_eq_nil_of_le (by rw [Nat.mul_succ]; omega)
        rw [hout]
        simp [rerank_batch_nil]

end MatchingEngine

/-! ### Claims -/

/-- C1: for every candidate and parsed requirement, the weights applied by
`rule_based_scoring` sum to exactly 1 whatever combination of
`preferred_skills`, `domain` and `min_years_per_skill` is unspecified (each
unspecified axis's weight — 0.20, 0.15, 0.15 — funnels into the
required-skills weight, base 0.50); the returned score lies in [0,1]; and
with all three axes unspecified the score equals the required-skills
coverage alone. -/
theorem claim_C1_weight_sum (c : RankedCandidate) (r : ParsedRequirement) :
    ((MatchingEngine.rule_scores c r).map (fun e => e.2.2)).sum = 1 ∧
    0 ≤ MatchingEngine.rule_based_scoring c r ∧
    MatchingEngine.rule_based_scoring c r ≤ 1 ∧
    (r.preferred_skills = [] → MatchingEngine.strippedDomain r = "" →
      r.min_years_per_skill = [] →
      MatchingEngine.rule_based_scoring c r = MatchingEngine.ruleRequiredScore c r) := by
  refine ⟨?_, ?_, ?_, ?_⟩
  · unfold MatchingEngine.rule_scores
    split_ifs <;> norm_num
  · exact le_min (le_max_right _ _) zero_le_one
  · exact min_le_right _ _
  · intro h1 h2 h3
    have h0 := MatchingEngine.ruleRequiredScore_nonneg c r
    have hle := MatchingEngine.ruleRequiredScore_le_one c r
    unfold MatchingEngine.rule_based_scoring MatchingEngine.rule_scores
    rw [h1, h2, h3]
    norm_num
    rw [max_eq_left h0, min_eq_left hle]

/-- C1 witness: with no preferred skills, no domain and no experience
minimums, the rule-based score of a concrete candidate equals the
required-skills coverage alone. -/
theorem claim_C1_weight_sum_witness :
    MatchingEngine.rule_based_scoring
        ⟨"A", [("Python", "expert")], [], [], none, none, none, none, none, none⟩
        ⟨["Python"], [], "", [], ""⟩
      = MatchingEngine.ruleRequiredScore
        ⟨"A", [("Python", "expert")], [], [], none, none, none, none, none, none⟩
        ⟨["Python"], [], "", [], ""⟩ :=
  (claim_C1_weight_sum _ _).2.2.2 rfl (by decide) rfl

/-- C2 counterexample: the cleaned form of "json" belongs to no variation
group, yet `normalize_skill` does not return it unchanged — the substring
part of the match condition fires on the variation "js" and maps it to
"javascript". -/
theorem claim_C2_counterexample :
    cleanSkill "json" = "json" ∧
    SkillNormalizer.SKILL_VARIATIONS.all (fun g => !g.2.contains "json") = true ∧
    SkillNormalizer.normalize_skill "json" = "javascript" := by decide

/-- C2 amended: `normalize_skill` returns the cleaned string unchanged only
when no variation of any group occurs as a substring of the cleaned string
(list membership being the special case of the variation equalling the
cleaned string); when some variation does occur as a substring the cleaned
string may instead be mapped to that group's canonical name. -/
theorem claim_C2_amended (skill : String)
    (h : ∀ g ∈ SkillNormalizer.SKILL_VARIATIONS, ∀ v ∈ g.2,
           substrB v (cleanSkill skill) = false) :
    SkillNormalizer.normalize_skill skill = cleanSkill skill := by
  unfold SkillNormalizer.normalize_skill
  split
  · next hempty => subst hempty; rfl
  · have hnone : SkillNormalizer.SKILL_VARIATIONS.find?
        (fun g => SkillNormalizer.variationHit (cleanSkill skill) g.2) = none := by
      rw [List.find?_eq_none]
      intro g hg
      simp only [SkillNormalizer.variationHit, Bool.or_eq_true, List.any_eq_true,
        not_or, not_exists]
      constructor
      · intro hcontains
        have hm : cleanSkill skill ∈ g.2 := by simpa using hcontains
        have := h g hg _ hm
        rw [substrB_self] at this
        exact Bool.noConfusion this
      · intro v
        intro hv
        rcases hv with ⟨hvmem, hvsub⟩
        have := h g hg v hvmem
        rw [hvsub] at this
        exact Bool.noConfusion this
    simp only [hnone]

/-- C2 amended witness: "cobol" matches no variation by membership or
substring, and normalizes to its cleaned form unchanged. -/
theorem claim_C2_amended_witness :
    (∀ g ∈ SkillNormalizer.SKILL_VARIATIONS, ∀ v ∈ g.2,
        substrB v (cleanSkill "cobol") = false) ∧
    SkillNormalizer.normalize_skill "cobol" = cleanSkill "cobol" :=
  ⟨by decide, claim_C2_amended "cobol" (by decide)⟩

/-- C3: `analyze_gaps` yields at most one gap per required skill and keeps
requirement order — the produced skills form a sublist of the input — and a
required skill the candidate neither has nor implies produces exactly the
`missing`/`high` gap, with no proficiency or years fields. -/
theorem claim_C3_gap_shape (c : CandidateProfile) (req : List String)
    (my : List (String × ℚ)) :
    ((GapAnalyzer.analyze_gaps c req my).map (·.skill)).Sublist req ∧
    (GapAnalyzer.analyze_gaps c req my).length ≤ req.length ∧
    (∀ s, SkillNormalizer.has_skill_or_equivalent (GapAnalyzer.candidateSkillSet c) s
            = false →
      GapAnalyzer.gapForSkill c my s = some ⟨s, "missing", "high", none, none⟩) := by
  have hs := filterMap_proj_sublist (GapAnalyzer.gapForSkill c my) Gap.skill
    (GapAnalyzer.gapForSkill_skill c my) req
  refine ⟨hs, ?_, ?_⟩
  · simpa using hs.length_le
  · intro s hmiss
    simp [GapAnalyzer.gapForSkill, hmiss]

/-- C3 witness: a candidate without "AWS" (or anything equivalent) gets
exactly the missing/high gap for it. -/
theorem claim_C3_gap_shape_witness :
    SkillNormalizer.has_skill_or_equivalent
        (GapAnalyzer.candidateSkillSet ⟨[("Python", "expert")], [("Python", 5)], []⟩)
        "AWS" = false ∧
    GapAnalyzer.gapForSkill ⟨[("Python", "expert")], [("Python", 5)], []⟩ [] "AWS"
      = some ⟨"AWS", "missing", "high", none, none⟩ :=
  ⟨by decide,
   (claim_C3_gap_shape ⟨[("Python", "expert")], [("Python", 5)], []⟩ ["AWS"] []).2.2
     "AWS" (by decide)⟩

/-- C4 counterexample: the minimum-years lookup of `analyze_gaps` is keyed
by the candidate's matched extracted-skill spelling (`actual_skill_key`),
not by the required skill named in the requirement.  Here every condition
of the claim holds for required skill "Java" — the candidate possesses it
with sufficient (expert) proficiency, `min_years_per_skill` specifies a
5-year minimum under the key "Java", and the candidate's recorded years
(1, under its own spelling "java") fall short — yet no gap of any kind is
emitted, because the code looks up the spelling "java" in the minimum map
and misses. -/
theorem claim_C4_counterexample :
    SkillNormalizer.has_skill_or_equivalent
        (GapAnalyzer.candidateSkillSet ⟨[("java", "expert")], [("java", 1)], []⟩)
        "Java" = true ∧
    1/2 ≤ GapAnalyzer.proficiency_score (GapAnalyzer.pyLower "expert") ∧
    ([(("Java" : String), (5 : ℚ))].lookup "Java" = some 5) ∧
    (([(("java" : String), (1 : ℚ))].lookup "java").getD 0 < 5) ∧
    GapAnalyzer.analyze_gaps ⟨[("java", "expert")], [("java", 1)], []⟩
        ["Java"] [("Java", 5)] = [] := by
  refine ⟨by decide, ?_, rfl, ?_, ?_⟩
  · norm_num [GapAnalyzer.proficiency_score,
      show GapAnalyzer.pyLower "expert" = "expert" from by decide]
  · norm_num [List.lookup]
  · have hnotlt : ¬ (GapAnalyzer.proficiency_score (GapAnalyzer.pyLower "expert") < 2⁻¹) := by
      norm_num [GapAnalyzer.proficiency_score,
        show GapAnalyzer.pyLower "expert" = "expert" from by decide]
    have hgap : GapAnalyzer.gapForSkill ⟨[("java", "expert")], [("java", 1)], []⟩
        [("Java", 5)] "Java" = none := by
      simp [GapAnalyzer.gapForSkill, hnotlt,
        show SkillNormalizer.has_skill_or_equivalent
          (GapAnalyzer.candidateSkillSet ⟨[("java", "expert")], [("java", 1)], []⟩)
          "Java" = true from by decide,
        show GapAnalyzer.actual_skill_key ⟨[("java", "expert")], [("java", 1)], []⟩
          (SkillNormalizer.normalize_skill "Java") = some "java" from by decide,
        show List.lookup "java" [("java", "expert")] = some "expert" from by decide,
        show List.lookup "java" [(("Java" : String), (5 : ℚ))] = none from by decide]
    simp [GapAnalyzer.analyze_gaps, hgap]

/-- C4 amended: the years check of `analyze_gaps` is keyed by the
candidate's matched extracted-skill spelling, not by the required skill's
name: when `min_years_per_skill` contains the `actual_skill_key` of a
required skill the candidate holds with sufficient proficiency (score at
least 0.5), and the candidate's recorded years under that key fall short
of that minimum, the emitted gap is `insufficient_experience`, `high` when
the deficit exceeds two years and `medium` otherwise, carrying the
required and candidate years. -/
theorem claim_C4_years_gap (c : CandidateProfile) (my : List (String × ℚ))
    (pre post : List String) (s key prof : String) (ry : ℚ)
    (hhas : SkillNormalizer.has_skill_or_equivalent (GapAnalyzer.candidateSkillSet c) s
              = true)
    (hkey : GapAnalyzer.actual_skill_key c (SkillNormalizer.normalize_skill s) = some key)
    (hne : key ≠ "")
    (hprof : c.extracted_skills.lookup key = some prof)
    (hsuff : 1/2 ≤ GapAnalyzer.proficiency_score (GapAnalyzer.pyLower prof))
    (hry : my.lookup key = some ry)
    (hshort : (c.years_of_experience.lookup key).getD 0 < ry) :
    GapAnalyzer.analyze_gaps c (pre ++ s :: post) my =
      GapAnalyzer.analyze_gaps c pre my ++
        ⟨s, "insufficient_experience",
          if ry - (c.years_of_experience.lookup key).getD 0 > 2 then "high" else "medium",
          some ry, some ((c.years_of_experience.lookup key).getD 0)⟩ ::
        GapAnalyzer.analyze_gaps c post my := by
  have hgap : GapAnalyzer.gapForSkill c my s =
      some ⟨s, "insufficient_experience",
        if ry - (c.years_of_experience.lookup key).getD 0 > 2 then "high" else "medium",
        some ry, some ((c.years_of_experience.lookup key).getD 0)⟩ := by
    have hnotlt : ¬ (GapAnalyzer.proficiency_score (GapAnalyzer.pyLower prof) < 2⁻¹) := by
      rw [← one_div]; exact not_lt.mpr hsuff
    simp [GapAnalyzer.gapForSkill, hhas, hkey, hne, hprof, hry, hshort, hnotlt]
  simp [GapAnalyzer.analyze_gaps, List.filterMap_append, List.filterMap_cons, hgap]

/-- C4 amended witness: expert "java" with 1 recorded year against a 5-year
minimum stated under the candidate's own spelling "java" yields a
high-severity insufficient-experience gap. -/
theorem claim_C4_years_gap_witness :
    GapAnalyzer.analyze_gaps ⟨[("java", "expert")], [("java", 1)], []⟩
        ["Java"] [("java", 5)]
      = [⟨"Java", "insufficient_experience", "high", some 5, some 1⟩] := by
  have h := claim_C4_years_gap ⟨[("java", "expert")], [("java", 1)], []⟩ [("java", 5)]
    [] [] "Java" "java" "expert" 5 (by decide) (by decide) (by decide) (by decide)
    (by norm_num [GapAnalyzer.proficiency_score,
          show GapAnalyzer.pyLower "expert" = "expert" from by decide])
    (by decide) (by norm_num [List.lookup])
  unfold GapAnalyzer.analyze_gaps
  simp only [List.nil_append, GapAnalyzer.analyze_gaps, List.filterMap_nil] at h
  rw [h]
  norm_num [List.lookup]

/-- C10: a required skill satisfied only through the implication graph —
no entry of `extracted_skills` matches it directly or as a variation —
produces no gap at all, whatever the implying skill's proficiency or
recorded years. -/
theorem claim_C10_implied_no_gap (c : CandidateProfile) (my : List (String × ℚ))
    (pre post : List String) (s : String)
    (hhas : SkillNormalizer.has_skill_or_equivalent (GapAnalyzer.candidateSkillSet c) s
              = true)
    (hnod : ∀ kv ∈ GapAnalyzer.candidateNormalized c,
        SkillNormalizer.skills_match kv.1 (SkillNormalizer.normalize_skill s) = false) :
    GapAnalyzer.gapForSkill c my s = none ∧
    GapAnalyzer.analyze_gaps c (pre ++ s :: post) my =
      GapAnalyzer.analyze_gaps c pre my ++ GapAnalyzer.analyze_gaps c post my := by
  have hfind : (GapAnalyzer.candidateNormalized c).find?
      (fun kv => SkillNormalizer.skills_match kv.1 (SkillNormalizer.normalize_skill s))
        = none :=
    List.find?_eq_none.mpr (fun kv hkv => by simp [hnod kv hkv])
  have hkey : GapAnalyzer.actual_skill_key c (SkillNormalizer.normalize_skill s) = none := by
    simp [GapAnalyzer.actual_skill_key, hfind]
  have hgap : GapAnalyzer.gapForSkill c my s = none := by
    simp [GapAnalyzer.gapForSkill, hhas, hkey]
  exact ⟨hgap,
    by simp [GapAnalyzer.analyze_gaps, List.filterMap_append, List.filterMap_cons, hgap]⟩

/-- C10 witness: a candidate holding only beginner "Spring Boot" satisfies a
required "java" purely by implication, and gets no gap even though a 5-year
java minimum is stated. -/
theorem claim_C10_implied_no_gap_witness :
    GapAnalyzer.analyze_gaps ⟨[("Spring Boot", "beginner")], [], []⟩
        ["java"] [("java", 5)] = [] := by
  have h := claim_C10_implied_no_gap ⟨[("Spring Boot", "beginner")], [], []⟩
    [("java", 5)] [] [] "java" (by decide) (by decide)
  simpa [GapAnalyzer.analyze_gaps] using h.2

/-- C5 counterexample: "ReactJS" and "React" are variation-equivalent under
the Skill Normalizer, yet a candidate whose only extracted skill is
"ReactJS" scores required-skills coverage 0 (and rule score 0) against a
requirement demanding "React" — the synonym spelling does lower the
score. -/
theorem claim_C5_counterexample :
    SkillNormalizer.skills_match "ReactJS" "React" = true ∧
    MatchingEngine.ruleRequiredScore
        ⟨"A", [("ReactJS", "expert")], [], [], none, none, none, none, none, none⟩
        ⟨["React"], [], "", [], ""⟩ = 0 ∧
    MatchingEngine.rule_based_scoring
        ⟨"A", [("ReactJS", "expert")], [], [], none, none, none, none, none, none⟩
        ⟨["React"], [], "", [], ""⟩ = 0 := by
  have hcount : List.countP
      (fun s => (List.map (fun x => x.1)
        [(("ReactJS" : String), ("expert" : String))]).contains s) ["React"] = 0 := by
    decide
  have h1 : MatchingEngine.ruleRequiredScore
      ⟨"A", [("ReactJS", "expert")], [], [], none, none, none, none, none, none⟩
      ⟨["React"], [], "", [], ""⟩ = 0 := by
    unfold MatchingEngine.ruleRequiredScore
    rw [if_neg (by decide : ¬ (["React"] : List String) = [])]
    simp only [hcount]
    norm_num
  refine ⟨by decide, h1, ?_⟩
  have hd : MatchingEngine.strippedDomain ⟨["React"], [], "", [], ""⟩ = "" := by decide
  unfold MatchingEngine.rule_based_scoring MatchingEngine.rule_scores
  rw [hd]
  simp only [if_pos rfl, List.nil_append, List.map_cons, List.map_nil, List.sum_cons,
    List.sum_nil, h1]
  norm_num [min_def, max_def]

/-- C5 amended: in the rule-based required-skills coverage a required skill
counts as matched only when its exact string is a key of
`extracted_skills` — the Skill Normalizer is not consulted — so a candidate
holding every required skill solely under variation-equivalent spellings
scores required coverage 0. -/
theorem claim_C5_amended (c : RankedCandidate) (r : ParsedRequirement)
    (hne : r.required_skills ≠ [])
    (hvar : ∀ s ∈ r.required_skills, ∃ k ∈ c.extracted_skills.map (·.1),
        SkillNormalizer.skills_match k s = true)
    (hraw : ∀ s ∈ r.required_skills, (c.extracted_skills.map (·.1)).contains s = false) :
    MatchingEngine.ruleRequiredScore c r = 0 := by
  unfold MatchingEngine.ruleRequiredScore
  rw [if_neg hne]
  have hcount : r.required_skills.countP
      (fun s => (c.extracted_skills.map (·.1)).contains s) = 0 := by
    rw [List.countP_eq_zero]
    intro s hs
    rw [hraw s hs]
    simp
  rw [hcount]
  simp

/-- C5 amended witness: the ReactJS/React candidate-requirement pair
satisfies the variation-coverage hypothesis and still scores 0. -/
theorem claim_C5_amended_witness :
    MatchingEngine.ruleRequiredScore
        ⟨"A", [("ReactJS", "expert")], [], [], none, none, none, none, none, none⟩
        ⟨["React"], [], "", [], ""⟩ = 0 :=
  claim_C5_amended
    ⟨"A", [("ReactJS", "expert")], [], [], none, none, none, none, none, none⟩
    ⟨["React"], [], "", [], ""⟩ (by decide) (by decide) (by decide)

/-- C6: `llm_rerank` never loses candidates; after it every candidate has an
`llm_score`; each five-candidate batch is processed only against its own
LLM outcome (other batches unaffected); and any candidate of a batch not
addressed by a returned record — in particular every candidate of a batch
whose LLM call raised — ends up with `llm_score = 0` and empty
matched/missing skills, insights and evidence (the zero-confidence
defaults `setDefaults`). -/
theorem claim_C6_llm_defaults (cands : List RankedCandidate)
    (oracle : ℕ → Except Unit (List MatchingEngine.LLMRecord))
    (h : ∀ c ∈ cands, c.llm_score = none) :
    (MatchingEngine.llm_rerank cands oracle).length = cands.length ∧
    (∀ c ∈ MatchingEngine.llm_rerank cands oracle, c.llm_score.isSome) ∧
    (∀ k : ℕ, ((MatchingEngine.llm_rerank cands oracle).drop (5 * k)).take 5
        = MatchingEngine.rerank_batch ((cands.drop (5 * k)).take 5) (oracle k)) ∧
    (∀ k j : ℕ,
      (∀ rs, oracle k = .ok rs →
        ∀ rec ∈ rs, rec.candidate_index.getD 0 ≠ (j : ℤ)) →
      ((((MatchingEngine.llm_rerank cands oracle).drop (5 * k)).take 5)[j]?)
        = ((((cands.drop (5 * k)).take 5)[j]?).map MatchingEngine.setDefaults)) := by
  have hbatch : ∀ k : ℕ, ((MatchingEngine.llm_rerank cands oracle).drop (5 * k)).take 5
      = MatchingEngine.rerank_batch ((cands.drop (5 * k)).take 5) (oracle k) := by
    intro k
    have := MatchingEngine.rerankGo_batch oracle k cands 0
    simpa [MatchingEngine.llm_rerank] using this
  refine ⟨MatchingEngine.rerankGo_length oracle cands.length cands 0 le_rfl,
    MatchingEngine.rerankGo_isSome oracle cands.length cands 0 le_rfl, hbatch, ?_⟩
  intro k j hun
  rw [hbatch k]
  exact MatchingEngine.rerank_batch_unaddressed _ _ j
    (fun c hc => h c (List.drop_subset _ _ (List.take_subset _ _ hc))) hun

/-- C6 witness: a single candidate whose batch's LLM call raised comes back
with exactly the zero-confidence defaults. -/
theorem claim_C6_llm_defaults_witness :
    ((((MatchingEngine.llm_rerank
          [⟨"A", [], [], [], some 1, none, none, none, none, none⟩]
          (fun _ => .error ())).drop (5 * 0)).take 5)[0]?)
      = (((([⟨"A", [], [], [], some 1, none, none, none, none, none⟩].drop (5 * 0)).take
            5)[0]?).map MatchingEngine.setDefaults) :=
  (claim_C6_llm_defaults [⟨"A", [], [], [], some 1, none, none, none, none, none⟩]
    (fun _ => .error ()) (by simp)).2.2.2 0 0 (fun rs hrs => nomatch hrs)

/-- C7 counterexample: with a non-empty gap list but every stage of the
course-retrieval fallback chain empty (an empty course catalog),
`recommend_courses` returns the empty list — no generic fallback
recommendation is fabricated. -/
theorem claim_C7_counterexample :
    CourseAgent.recommend_courses [⟨"Docker", "missing", "high", none, none⟩]
        [] [] [] [] [] (.ok []) 1 1 1 = [] ∧
    ([⟨"Docker", "missing", "high", none, none⟩] : List Gap) ≠ [] := by
  constructor
  · rfl
  · simp

/-- C7 amended: `recommend_courses` returns at most 2 recommendations,
returns the empty list when the gap list is empty, and returns at least one
recommendation whenever the gap list is non-empty AND the retrieval
fallback chain finds at least one course; when no course can be found at
all it returns the empty list instead of a generic fallback. -/
theorem claim_C7_amended (gaps : List Gap) (profile : List String)
    (s1 s2 s3 s4 : List CourseRow) (resp : Except Unit (List CourseLLMRecord))
    (wv wl wr : ℚ) :
    (CourseAgent.recommend_courses gaps profile s1 s2 s3 s4 resp wv wl wr).length ≤ 2 ∧
    (gaps = [] →
      CourseAgent.recommend_courses gaps profile s1 s2 s3 s4 resp wv wl wr = []) ∧
    (gaps ≠ [] → CourseAgent.selectCourses s1 s2 s3 s4 ≠ [] →
      CourseAgent.recommend_courses gaps profile s1 s2 s3 s4 resp wv wl wr ≠ []) := by
  by_cases hg : gaps = []
  · subst hg
    simp [CourseAgent.recommend_courses]
  · by_cases hcs : CourseAgent.selectCourses s1 s2 s3 s4 = []
    · simp only [CourseAgent.recommend_courses, if_neg hg, if_pos hcs]
      exact ⟨by simp, fun h => absurd h hg, fun _ hc => absurd hcs hc⟩
    · have hsne : MatchingEngine.sortByKeyDesc (fun sc => sc.final_score)
          ((CourseAgent.llm_rerank_courses (CourseAgent.selectCourses s1 s2 s3 s4)
            resp).map (CourseAgent.scoreCourse wv wl wr gaps profile)) ≠ [] := by
        intro h0
        apply hcs
        have hlen := congrArg List.length h0
        rw [(MatchingEngine.sortByKeyDesc_perm _ _).length_eq, List.length_map,
          CourseAgent.llm_rerank_courses_length] at hlen
        exact List.length_eq_zero.mp hlen
      have hresult :
          (CourseAgent.recommend_courses gaps profile s1 s2 s3 s4 resp wv wl wr).length
            ≤ 2 ∧
          CourseAgent.recommend_courses gaps profile s1 s2 s3 s4 resp wv wl wr ≠ [] := by
        simp only [CourseAgent.recommend_courses, if_neg hg, if_neg hcs]
        split
        all_goals
          split
        case _ hcond =>
          split
          · next heq => exact absurd heq hsne
          · exact ⟨by simp, by simp⟩
        case _ hcond =>
          refine ⟨?_, fun h0 => hcond ⟨h0, hsne⟩⟩
          rw [List.length_map]
          exact le_trans (List.length_take_le _ _) (min_le_right _ _)
        case _ hcond =>
          split
          · next heq => exact absurd heq hsne
          · exact ⟨by simp, by simp⟩
        case _ hcond =>
          refine ⟨?_, fun h0 => hcond ⟨h0, hsne⟩⟩
          rw [List.length_map]
          exact le_trans (List.length_take_le _ _) (min_le_right _ _)
      exact ⟨hresult.1, fun h => absurd h hg, fun _ _ => hresult.2⟩

/-- C7 amended witness: one gap and one retrieved course produce a
non-empty recommendation list of at most 2 entries. -/
theorem claim_C7_amended_witness :
    CourseAgent.recommend_courses [⟨"Docker", "missing", "high", none, none⟩] []
        [⟨none, "Docker Fundamentals", "hands-on labs", some "advanced", [], some 1,
          none, none, none⟩] [] [] [] (.error ()) 1 1 1 ≠ [] ∧
    (CourseAgent.recommend_courses [⟨"Docker", "missing", "high", none, none⟩] []
        [⟨none, "Docker Fundamentals", "hands-on labs", some "advanced", [], some 1,
          none, none, none⟩] [] [] [] (.error ()) 1 1 1).length ≤ 2 :=
  ⟨(claim_C7_amended [⟨"Docker", "missing", "high", none, none⟩] []
      [⟨none, "Docker Fundamentals", "hands-on labs", some "advanced", [], some 1,
        none, none, none⟩] [] [] [] (.error ()) 1 1 1).2.2 (by simp)
      (by simp [CourseAgent.selectCourses]),
   (claim_C7_amended [⟨"Docker", "missing", "high", none, none⟩] []
      [⟨none, "Docker Fundamentals", "hands-on labs", some "advanced", [], some 1,
        none, none, none⟩] [] [] [] (.error ()) 1 1 1).1⟩

/-- C8: the list `match_candidates` returns is the scored candidates sorted
descending by `final_score` with ties keeping original retrieval order
(stable sort, witnessed by filter-preservation for every score value),
truncated to `top_n`; every returned candidate carries
`final_score = clamp(wv*similarity + wl*llm_score + wr*rule_score, 0, 1)`
and `match_percentage = round(final_score * 100)`. -/
theorem claim_C8_sort_fusion (wv wl wr : ℚ) (r : ParsedRequirement)
    (cands : List RankedCandidate) (top_n : ℕ) :
    MatchingEngine.match_candidates_rank wv wl wr r cands top_n
      = (MatchingEngine.sortByKeyDesc (fun sc => sc.final_score)
          (cands.map (MatchingEngine.scoreCandidate wv wl wr r))).take top_n ∧
    (MatchingEngine.match_candidates_rank wv wl wr r cands top_n).length ≤ top_n ∧
    (MatchingEngine.sortByKeyDesc (fun sc => sc.final_score)
        (cands.map (MatchingEngine.scoreCandidate wv wl wr r))).Perm
      (cands.map (MatchingEngine.scoreCandidate wv wl wr r)) ∧
    (MatchingEngine.match_candidates_rank wv wl wr r cands top_n).Pairwise
      (fun a b => b.final_score ≤ a.final_score) ∧
    (∀ q : ℚ,
      (MatchingEngine.sortByKeyDesc (fun sc => sc.final_score)
          (cands.map (MatchingEngine.scoreCandidate wv wl wr r))).filter
            (fun sc => decide (sc.final_score = q))
        = (cands.map (MatchingEngine.scoreCandidate wv wl wr r)).filter
            (fun sc => decide (sc.final_score = q))) ∧
    (∀ sc ∈ MatchingEngine.match_candidates_rank wv wl wr r cands top_n,
       sc.final_score = MatchingEngine.calculate_final_score wv wl wr
          (sc.cand.similarity.getD 0) (sc.cand.llm_score.getD 0) sc.rule_score ∧
       sc.rule_score = MatchingEngine.rule_based_scoring sc.cand r ∧
       sc.match_percentage = MatchingEngine.pyRound (sc.final_score * 100) ∧
       0 ≤ sc.final_score ∧ sc.final_score ≤ 1) := by
  refine ⟨rfl, List.length_take_le _ _, MatchingEngine.sortByKeyDesc_perm _ _, ?_, ?_, ?_⟩
  · exact (MatchingEngine.sortByKeyDesc_pairwise _ _).sublist (List.take_sublist _ _)
  · exact MatchingEngine.sortByKeyDesc_filter _ _
  · intro sc hsc
    have hsorted : sc ∈ MatchingEngine.sortByKeyDesc (fun sc => sc.final_score)
        (cands.map (MatchingEngine.scoreCandidate wv wl wr r)) :=
      List.take_subset _ _ hsc
    have hscored : sc ∈ cands.map (MatchingEngine.scoreCandidate wv wl wr r) :=
      (MatchingEngine.sortByKeyDesc_perm _ _).mem_iff.mp hsorted
    rcases List.mem_map.mp hscored with ⟨c, _, rfl⟩
    refine ⟨rfl, rfl, rfl, ?_, ?_⟩
    · exact le_min (le_max_right _ _) zero_le_one
    · exact min_le_right _ _

/-- C8 witness: a single concrete candidate appears in the ranked output and
carries the fused and rounded scores. -/
theorem claim_C8_sort_fusion_witness :
    (MatchingEngine.scoreCandidate 1 0 0 ⟨[], [], "", [], ""⟩
        ⟨"A", [], [], [], some (1/2), none, none, none, none, none⟩).match_percentage
      = MatchingEngine.pyRound
          ((MatchingEngine.scoreCandidate 1 0 0 ⟨[], [], "", [], ""⟩
            ⟨"A", [], [], [], some (1/2), none, none, none, none, none⟩).final_score * 100) :=
  ((claim_C8_sort_fusion 1 0 0 ⟨[], [], "", [], ""⟩
      [⟨"A", [], [], [], some (1/2), none, none, none, none, none⟩] 3).2.2.2.2.2
    (MatchingEngine.scoreCandidate 1 0 0 ⟨[], [], "", [], ""⟩
      ⟨"A", [], [], [], some (1/2), none, none, none, none, none⟩)
    (by simp [MatchingEngine.match_candidates_rank, MatchingEngine.sortByKeyDesc,
          MatchingEngine.insertByKeyDesc])).2.2.1

/-- C9: any two skills in the same declared variation group satisfy
`skills_match`, and both normalize to that group's canonical name. -/
theorem claim_C9_variation_groups :
    ∀ g ∈ SkillNormalizer.SKILL_VARIATIONS, ∀ a ∈ g.2, ∀ b ∈ g.2,
      SkillNormalizer.skills_match a b = true ∧
      SkillNormalizer.normalize_skill a = g.1 ∧
      SkillNormalizer.normalize_skill b = g.1 := by decide

/-- C9 witness: "reactjs" and "react" are in the react.js variation group
and match. -/
theorem claim_C9_variation_groups_witness :
    ("react.js", ["react.js", "reactjs", "react", "react js"])
        ∈ SkillNormalizer.SKILL_VARIATIONS ∧
    SkillNormalizer.skills_match "reactjs" "react" = true :=
  ⟨by decide,
   (claim_C9_variation_groups ("react.js", ["react.js", "reactjs", "react", "react js"])
      (by decide) "reactjs" (by decide) "react" (by decide)).1⟩

end ResourceFinder
